import Mathlib

/-!
Verification of the manifest-resolution and component-selection core of the
`dotfiles-installer` repository (a Deno/TypeScript manifest-driven dotfile
installer).

The TypeScript sources are shallowly embedded as executable Lean definitions:

* JavaScript strings are modelled as Lean `String`; all operations used by the
  code (`startsWith`, `split`, concatenation, lexicographic comparison) are
  re-defined over `String.data` (a `List Char`) so that every definition
  kernel-evaluates on concrete inputs.
* Asynchronous filesystem access is modelled by passing the relevant
  filesystem state explicitly (existence predicates, directory listings,
  a path-to-node map); environment access (`Deno.env.get`) is an explicit
  `Option String` parameter, and the working directory an explicit `String`.
* Thrown JavaScript exceptions are modelled with `Except String`;
  functions that catch all inner exceptions are total and return their
  log output (warnings / errors) explicitly.
* JavaScript array mutation through aliased references (relevant for
  `getComponentBuilds`, which pushes onto an array shared with the manifest)
  is modelled by state passing: the function returns the manifest value as it
  stands after the call.
* JavaScript numbers appearing as manifest priorities are modelled as `Int`;
  the claims under study involve only integral priorities, and the comparator
  logic (strict order with `Infinity` for an absent priority) is preserved by
  treating an absent priority as greater than every present one.
* `String.prototype.localeCompare` is modelled as code-point lexicographic
  comparison, which is the ordering the specification describes.
-/

/-! ## String primitives (models of the JavaScript string operations used) -/

/-- Model of JavaScript `s.startsWith(pre)`. -/
def strStartsWith (s pre : String) : Bool :=
  pre.data.isPrefixOf s.data

/-- Model of JavaScript `s.slice(n)` / dropping the first `n` characters. -/
def strDrop (s : String) (n : Nat) : String :=
  ⟨s.data.drop n⟩

/-- Splits a character list on a separator character; models
`String.prototype.split` with a one-character separator (the code only
splits on `"."`).  `splitOnChar c ""` is `[""]`, as in JavaScript. -/
def splitOnCharList (c : Char) (l : List Char) : List (List Char) :=
  l.foldr
    (fun ch acc =>
      match acc with
      | [] => [[ch]]
      | cur :: rest => if ch == c then [] :: cur :: rest else (ch :: cur) :: rest)
    [[]]

/-- Model of JavaScript `s.split(c)` for a one-character separator. -/
def strSplitOnChar (c : Char) (s : String) : List String :=
  (splitOnCharList c s.data).map (fun l => ⟨l⟩)

/-- Code-point lexicographic `≤` on character lists. -/
def lexLe : List Char → List Char → Bool
  | [], _ => true
  | _ :: _, [] => false
  | a :: as, b :: bs => if a < b then true else if b < a then false else lexLe as bs

/-- Code-point lexicographic `≤` on strings; model of
`a.localeCompare(b) <= 0`. -/
def strLe (a b : String) : Bool :=
  lexLe a.data b.data

/-! ## Path primitives (models of `@std/path`) -/

/-- Model of `@std/path` `join(a, b)` (the code only joins already clean
relative segments, so no normalisation is needed). -/
def joinPath (a b : String) : String :=
  a ++ "/" ++ b

/-- Model of `@std/path` `resolve(cwd, p)`: an absolute path stands,
a relative one is appended to the working directory.  Segment
normalisation (`.` / `..` collapsing) is not performed; none of the
verified properties depend on it. -/
def pathResolve (cwd : String) (p : String) : String :=
  if strStartsWith p "/" then p else cwd ++ "/" ++ p

/-- Model of variadic `resolve(a, b, c)` from `@std/path`: segments are
accumulated left to right, restarting at any absolute segment. -/
def pathResolveParts (cwd : String) (parts : List String) : String :=
  parts.foldl pathResolve cwd

/-! ## `src/lib/fs.ts`: `resolveHomePath` -/

/-- The error message thrown by `resolveHomePath` when `~` is present but the
HOME variable is unset. -/
def homeNotSetMsg : String :=
  "Cannot resolve \x27~\x27: HOME environment variable is not set."

/-- Replaces a leading `~` by `home` exactly when the `~` is followed by
`/`, `\` or the end of the string; model of
`path.replace(/^~(?=$|\/|\\)/, home)`. -/
def tildeReplace (path home : String) : String :=
  if path = "~" then home
  else if strStartsWith path "~/" then home ++ strDrop path 1
  else if strStartsWith path "~\\" then home ++ strDrop path 1
  else path

/-- Embedding of `resolveHomePath` (src/lib/fs.ts).  `env` is the value of
`Deno.env.get("HOME")` (`none` when unset); `cwd` the working directory.
JavaScript `!home` is true both for an unset and for an empty value. -/
def resolveHomePath (env : Option String) (cwd : String) (path : String) :
    Except String String :=
  if strStartsWith path "~" then
    match env with
    | none => .error homeNotSetMsg
    | some home =>
        if home = "" then .error homeNotSetMsg
        else .ok (pathResolve cwd (tildeReplace path home))
  else .ok (pathResolve cwd path)

/-! ## Data model (`src/lib/manifest.ts`, `src/constants/distro.ts`) -/

/-- `PackagerByDistro` from src/constants/distro.ts. -/
def PackagerByDistro : List (String × String) :=
  [("fedora", "dnf"), ("nobara", "dnf"), ("arch", "pacman"), ("cachyos", "pacman")]

/-- `getAvailableDistros` from src/lib/distro.ts: the keys of
`PackagerByDistro`. -/
def getAvailableDistros : List String :=
  PackagerByDistro.map (fun p => p.1)

/-- `availableTags` from src/lib/manifest.ts: the distro ids plus `*`. -/
def availableTags : List String :=
  getAvailableDistros ++ ["*"]

/-- The `method` enum of a config entry. -/
inductive InstallMethod
  | copy
  | symlink
deriving DecidableEq, Repr

/-- A validated config entry (`ConfigSrc`, the output type of
`ConfigSrcSchema`). -/
structure ConfigSrc where
  from_ : String
  to_ : String
  method : InstallMethod
  force : Bool
  tags : List String
deriving DecidableEq, Repr

/-- A validated manifest (`DotfileManifest`, the output type of
`DotfileManifestSchema`).  `builds` is an association list modelling the
JavaScript object (keys unique, insertion order kept). -/
structure DotfileManifest where
  name : String
  description : Option String
  priority : Option Int
  builds : Option (List (String × List String))
  configs : Option (List ConfigSrc)
  cleanup : Option (List String)
deriving DecidableEq, Repr

/-- A directory entry as produced by `Deno.readDir`. -/
structure DirEntry where
  name : String
  isFile : Bool
  isDirectory : Bool
deriving DecidableEq, Repr

/-! ## Schema validation (`ConfigSrcSchema`, `DotfileManifestSchema`)

The raw structures model a parsed JSONC document restricted to the fields the
schemas read (zod ignores unknown keys).  zod aggregates all field errors;
this embedding reports the first one, which is the only difference, and one no
claim depends on. -/

/-- A raw (unvalidated) config entry as parsed from JSONC. -/
structure RawConfigSrc where
  from_ : Option String
  to_ : Option String
  method : Option String
  force : Option Bool
  tags : Option (List String)
deriving DecidableEq, Repr

/-- A raw (unvalidated) manifest document as parsed from JSONC. -/
structure RawManifest where
  name : Option String
  description : Option String
  priority : Option Int
  builds : Option (List (String × List String))
  configs : Option (List RawConfigSrc)
  cleanup : Option (List String)
deriving DecidableEq, Repr

/-- Validation of the `method` enum. -/
def parseMethod (s : String) : Except String InstallMethod :=
  if s = "copy" then .ok .copy
  else if s = "symlink" then .ok .symlink
  else .error "method must be either copy or symlink."

/-- Validation of a `tags` array: every tag must come from
`availableTags`. -/
def parseTags (ts : List String) : Except String (List String) :=
  if ts.all (fun t => availableTags.contains t) then .ok ts
  else .error "invalid tag value"

/-- Embedding of `ConfigSrcSchema.parse`: required `from`/`to`/`method`,
default `force := false`, default `tags := ["*"]`. -/
def parseConfigSrc (r : RawConfigSrc) : Except String ConfigSrc :=
  match r.from_ with
  | none => .error "from path is required for a config source."
  | some f =>
    match r.to_ with
    | none => .error "to path is required for a config source."
    | some t =>
      match r.method with
      | none => .error "method must be either copy or symlink."
      | some ms =>
        match parseMethod ms with
        | .error e => .error e
        | .ok m =>
          match r.tags with
          | none =>
              .ok { from_ := f, to_ := t, method := m, force := r.force.getD false,
                    tags := ["*"] }
          | some ts =>
              match parseTags ts with
              | .error e => .error e
              | .ok ts2 =>
                  .ok { from_ := f, to_ := t, method := m, force := r.force.getD false,
                        tags := ts2 }

/-- Validates each raw config entry in order. -/
def parseConfigList : List RawConfigSrc → Except String (List ConfigSrc)
  | [] => .ok []
  | r :: rs =>
    match parseConfigSrc r with
    | .error e => .error e
    | .ok c =>
      match parseConfigList rs with
      | .error e => .error e
      | .ok cs => .ok (c :: cs)

/-- Validation of the `builds` record: every key must come from
`availableTags` (`z.partialRecord(z.enum(availableTags), ...)`). -/
def parseBuilds (bs : List (String × List String)) :
    Except String (List (String × List String)) :=
  if bs.all (fun p => availableTags.contains p.1) then .ok bs
  else .error "invalid builds key"

/-- The configs-and-assembly step of `DotfileManifestSchema.parse`, after
`name` and `builds` have been validated. -/
def parseManifestRest (r : RawManifest) (nm : String)
    (bs2 : Option (List (String × List String))) : Except String DotfileManifest :=
  match r.configs with
  | none =>
      .ok { name := nm, description := r.description, priority := r.priority,
            builds := bs2, configs := none, cleanup := r.cleanup }
  | some rcs =>
    match parseConfigList rcs with
    | .error e => .error e
    | .ok cs =>
        .ok { name := nm, description := r.description, priority := r.priority,
              builds := bs2, configs := some cs, cleanup := r.cleanup }

/-- Embedding of `DotfileManifestSchema.parse`: required `name`; `priority`
is optional with no default; `builds` keys validated against the tag enum;
`configs` validated entrywise. -/
def parseManifest (r : RawManifest) : Except String DotfileManifest :=
  match r.name with
  | none => .error "Component name is required."
  | some nm =>
    match r.builds with
    | none => parseManifestRest r nm none
    | some bs =>
      match parseBuilds bs with
      | .error e => .error e
      | .ok bs2 => parseManifestRest r nm (some bs2)

/-! ## Build-command resolver (`getComponentBuilds`, src actions/install) -/

/-- The filesystem capability used by `getComponentBuilds`:
`exists` and `Deno.readDir`. -/
structure BuildsFs where
  pathExists : String → Bool
  readDir : String → List DirEntry
deriving Inhabited

/-- Line `const commands = (man.builds as any)?.[machineId] || man.builds?.["*"] || [];`
In JavaScript an array is always truthy, so when the key is present its list
is taken, even when empty. -/
def buildsBase (machineId : String) (builds : Option (List (String × List String))) :
    List String :=
  match builds with
  | none => []
  | some bs =>
    match bs.lookup machineId with
    | some cmds => cmds
    | none => (bs.lookup "*").getD []

/-- Whether a directory entry matches the machine id:
`entry.isFile && entry.name.split(".")[0] === machineId`. -/
def scriptMatches (machineId : String) (e : DirEntry) : Bool :=
  e.isFile && ((strSplitOnChar '.' e.name).headD "" == machineId)

/-- The commands pushed for the matching scripts, in directory order:
`bash -c "<fullPath>/<entry.name>"`. -/
def scriptCmds (machineId fullPath : String) (entries : List DirEntry) :
    List String :=
  (entries.filter (scriptMatches machineId)).map
    (fun e => "bash -c \"" ++ fullPath ++ "/" ++ e.name ++ "\"")

/-- Replaces the value stored under key `k` (JavaScript object keys are
unique, so at most one entry changes). -/
def updateBuildKey (bs : List (String × List String)) (k : String)
    (v : List String) : List (String × List String) :=
  bs.map (fun p => if p.1 == k then (p.1, v) else p)

/-- Embedding of `getComponentBuilds`.  The returned pair is
(the command list, the manifest value after the call): `commands` aliases
the array stored in `man.builds` when one of the two keys was found, so the
`commands.push(...)` calls for discovered scripts also update that entry of
the manifest. -/
def getComponentBuilds (machineId : String) (man : DotfileManifest)
    (source : Option String) (env : Option String) (cwd : String)
    (fs : BuildsFs) : Except String (List String × DotfileManifest) :=
  let base := buildsBase machineId man.builds
  let buildsDir :=
    match source with
    | some s => joinPath (joinPath s man.name) "builds"
    | none => joinPath (joinPath "./components" man.name) "builds"
  match resolveHomePath env cwd buildsDir with
  | .error e => .error e
  | .ok fullPath =>
    if fs.pathExists fullPath then
      let scmds := scriptCmds machineId fullPath (fs.readDir fullPath)
      let commands := base ++ scmds
      let builds2 :=
        match man.builds with
        | none => none
        | some bs =>
          if (bs.lookup machineId).isSome then
            some (updateBuildKey bs machineId commands)
          else if (bs.lookup "*").isSome then
            some (updateBuildKey bs "*" commands)
          else some bs
      .ok (commands, { man with builds := builds2 })
    else .ok (base, man)

/-! ## Catalog sorting (`getAvailableManifests`, src/lib/manifest.ts)

`Array.prototype.sort` is stable and comparator-driven; it is modelled by a
stable insertion sort over the boolean relation `comparator(a, b) <= 0`. -/

/-- Strict comparison of priorities where an absent priority acts as
`Infinity` (`a.priority ?? Infinity`). -/
def prioLt : Option Int → Option Int → Bool
  | some a, some b => a < b
  | some _, none => true
  | none, _ => false

/-- The sort key selected by the `sortBy` argument. -/
inductive SortKey
  | priority
  | name
deriving DecidableEq, Repr

/-- The comparator of `getAvailableManifests` as a `≤` relation:
`priority` mode compares priorities (absent = Infinity) and breaks ties by
name; `name` mode compares names only.  `localeCompare` is modelled as
code-point lexicographic comparison. -/
def manifestLE (sb : SortKey) (a b : DotfileManifest) : Bool :=
  match sb with
  | .priority =>
      prioLt a.priority b.priority ||
        (a.priority == b.priority && strLe a.name b.name)
  | .name => strLe a.name b.name

/-- Stable insertion of one element into a sorted list. -/
def insertSorted (le : α → α → Bool) (a : α) : List α → List α
  | [] => [a]
  | b :: l => if le a b then a :: b :: l else b :: insertSorted le a l

/-- Stable insertion sort; model of the (stable) `Array.prototype.sort`. -/
def sortWith (le : α → α → Bool) : List α → List α
  | [] => []
  | a :: l => insertSorted le a (sortWith le l)

/-- The sorting step of `getAvailableManifests`. -/
def sortManifests (sb : SortKey) (l : List DotfileManifest) :
    List DotfileManifest :=
  sortWith (manifestLE sb) l

/-! ## Manifest resolution and the catalog (src/lib/manifest.ts) -/

/-- A log line emitted through the `log` collaborator. -/
inductive LogEvent
  | warn (msg : String)
  | error (msg : String)
deriving DecidableEq, Repr

/-- The filesystem state a catalog run observes, relative to one source
root.  `manifestFile n` is the JSONC parse outcome of
`<root>/<n>/manifest.jsonc` (`none` = file absent, `some (.error e)` =
parse failure); `isDir n` is the stat check of the component directory
(the `srcPath` of the code); `pathExists n p` is the existence check of
`<root>/<n>/<p>`; `entries` is `Deno.readDir` of the root itself. -/
structure SourceRoot where
  path : String
  rootExists : Bool
  entries : List DirEntry
  manifestFile : String → Option (Except String RawManifest)
  isDir : String → Bool
  pathExists : String → String → Bool

/-- Embedding of `resolveManifest`: manifest file must exist and parse,
the document must validate, the component directory must be a directory,
and every `configs[i].from` must exist beneath it.  Every failure is
wrapped in the component-naming message of the outer catch. -/
def resolveManifest (cmpName : String) (root : SourceRoot) :
    Except String DotfileManifest :=
  let wrap := fun (m : String) =>
    "Failed to resolve manifest for component " ++ cmpName ++ ": " ++ m
  match root.manifestFile cmpName with
  | none =>
      .error (wrap ("Manifest file not found: " ++
        joinPath (joinPath root.path cmpName) "manifest.jsonc"))
  | some (.error e) => .error (wrap e)
  | some (.ok raw) =>
    match parseManifest raw with
    | .error e => .error (wrap e)
    | .ok man =>
      if root.isDir cmpName then
        match man.configs with
        | none => .ok man
        | some cfgs =>
          match cfgs.find? (fun c => !(root.pathExists cmpName c.from_)) with
          | some c =>
              .error (wrap ("Source file/directory not found for config " ++
                c.from_ ++ " in component " ++ cmpName))
          | none => .ok man
      else
        .error (wrap ("Missing or invalid src/ directory for component " ++ cmpName))

/-- Embedding of `getManifest`: resolution failures are caught, logged as a
warning, and turned into `none`. -/
def getManifest (entryName : String) (root : SourceRoot) :
    Option DotfileManifest × List LogEvent :=
  match resolveManifest entryName root with
  | .ok m => (some m, [])
  | .error e => (none, [.warn ("Skipping component " ++ entryName ++ ": " ++ e)])

/-- The names the catalog attempts to resolve: the explicit list when
non-empty, otherwise every directory entry under the root. -/
def catalogNames (cmpNames : List String) (root : SourceRoot) : List String :=
  if cmpNames.length > 0 then cmpNames
  else (root.entries.filter (fun e => e.isDirectory)).map (fun e => e.name)

/-- Embedding of `getAvailableManifests`: on a missing root it reports one
error and yields an empty catalog; otherwise it resolves each name,
skipping failures with their warnings, and sorts the successes.  All inner
exceptions are caught, so the function is total (it never raises). -/
def getAvailableManifests (sb : SortKey) (cmpNames : List String)
    (root : SourceRoot) : List DotfileManifest × List LogEvent :=
  if root.rootExists then
    let results := (catalogNames cmpNames root).map (fun n => getManifest n root)
    (sortManifests sb (results.filterMap (fun r => r.1)),
      (results.map (fun r => r.2)).flatten)
  else
    ([], [.error ("Components source directory not found: " ++ root.path)])

/-! ## Selection filter (actionListComponents / actionInstallComponents)

Both actions apply the same two-stage filter over the catalog output:
tag-based inclusion when `--tags` was supplied non-empty, then name-based
exclusion when `--exclude` was supplied non-empty. -/

/-- JavaScript truthiness of `f.tags?.length` / `f.exclude?.length`:
the option is present and the list non-empty. -/
def flagActive : Option (List String) → Bool
  | none => false
  | some l => l.length != 0

/-- `x.configs?.some((c) => c.tags.some((t) => autoTags.includes(t)))`;
a component without `configs` is dropped under tag filtering. -/
def hasTaggedConfig (autoTags : List String) (x : DotfileManifest) : Bool :=
  match x.configs with
  | none => false
  | some cfgs => cfgs.any (fun c => c.tags.any (fun t => autoTags.contains t))

/-- The shared selection filter of the list and install actions:
`autoTags := f.tags ?? [machineId, "*"]`, tag filter when `--tags` is
active, then exclusion filter when `--exclude` is active. -/
def selectFilter (tags exclude : Option (List String)) (machineId : String)
    (l : List DotfileManifest) : List DotfileManifest :=
  let autoTags := tags.getD [machineId, "*"]
  let filteredByTags :=
    if flagActive tags then l.filter (hasTaggedConfig autoTags) else l
  if flagActive exclude then
    filteredByTags.filter (fun x => !((exclude.getD []).contains x.name))
  else filteredByTags

/-! ## File placement (`performFileOperation`, src/lib/fs.ts) -/

/-- A filesystem node, as far as the file operation distinguishes them. -/
inductive FsNode
  | file
  | dir
  | link
deriving DecidableEq, Repr

/-- The destination filesystem: a path-to-node map with shadowing insert
(first match wins on lookup). -/
structure InstallFs where
  nodes : List (String × FsNode)
deriving DecidableEq, Repr

/-- `Deno.stat` / `Deno.lstat` of a path (the model does not distinguish
link following; no claim depends on it). -/
def InstallFs.look (fs : InstallFs) (p : String) : Option FsNode :=
  fs.nodes.lookup p

/-- Creates or replaces the node at a path. -/
def InstallFs.insert (fs : InstallFs) (p : String) (n : FsNode) : InstallFs :=
  ⟨(p, n) :: fs.nodes⟩

/-- `Deno.remove(p, {recursive: true})`. -/
def InstallFs.remove (fs : InstallFs) (p : String) : InstallFs :=
  ⟨fs.nodes.filter (fun q => !(q.1 == p))⟩

/-- The visible filesystem actions `performFileOperation` can take. -/
inductive FsOp
  | ensuredDir (p : String)
  | removed (p : String)
  | copied (f t : String)
  | symlinked (f t : String)
deriving DecidableEq, Repr

/-- Whether the entry was placed or skipped. -/
inductive OpOutcome
  | skipped
  | done
deriving DecidableEq, Repr

/-- `new URL(".", "file://" + to).pathname`: everything up to and
including the last `/`. -/
def parentDirOf (p : String) : String :=
  String.intercalate "/" ((strSplitOnChar '/' p).dropLast) ++ "/"

/-- `ensureDir` from `@std/fs`: creates the directory when the path does
not exist yet; an existing path is left alone (the real function fails
only when the existing node is a regular file, which cannot happen for
the parent directory of an existing destination). -/
def ensureDir (fs : InstallFs) (p : String) : InstallFs × List FsOp :=
  match fs.look p with
  | some _ => (fs, [])
  | none => (fs.insert p .dir, [.ensuredDir p])

/-- Embedding of `getResolvedConfigPaths`: `from` is resolved against the
source root and component name, `to` through home expansion. -/
def getResolvedConfigPaths (env : Option String) (cwd : String)
    (sourcePath cmpName : String) (entry : ConfigSrc) :
    Except String (String × String) :=
  let f := pathResolveParts cwd [sourcePath, cmpName, entry.from_]
  match resolveHomePath env cwd entry.to_ with
  | .error e => .error e
  | .ok t => .ok (f, t)

/-- Embedding of `performFileOperation`.  Returns the filesystem after the
call, the visible operations in order, and whether the entry was placed or
skipped; every thrown (and re-thrown) exception is an `Except.error`. -/
def performFileOperation (fs : InstallFs) (env : Option String) (cwd : String)
    (sourcePath cmpName : String) (entry : ConfigSrc) (force : Bool) :
    Except String (InstallFs × List FsOp × OpOutcome) :=
  match getResolvedConfigPaths env cwd sourcePath cmpName entry with
  | .error e => .error e
  | .ok (f, t) =>
    match fs.look f with
    | none => .error ("NotFound: no such file or directory, stat " ++ f)
    | some srcNode =>
      let destDir := parentDirOf t
      let ensured := ensureDir fs destDir
      let fs1 := ensured.1
      let ops1 := ensured.2
      let isForced := force || entry.force
      let place := fun (fs2 : InstallFs) (ops2 : List FsOp) =>
        match entry.method with
        | .copy => Except.ok (fs2.insert t srcNode, ops2 ++ [FsOp.copied f t], OpOutcome.done)
        | .symlink => Except.ok (fs2.insert t .link, ops2 ++ [FsOp.symlinked f t], OpOutcome.done)
      match fs1.look t with
      | some _ =>
        if isForced then place (fs1.remove t) (ops1 ++ [.removed t])
        else .ok (fs1, ops1, .skipped)
      | none => place fs1 ops1

/-! ## Generic list lemmas -/

/-- Filtering twice with the same predicate filters once. -/
theorem filter_self_idem (p : α → Bool) (l : List α) :
    (l.filter p).filter p = l.filter p := by
  rw [List.filter_filter]
  apply List.filter_congr
  intro x _
  cases p x <;> rfl

/-- A `p`-then-`q` filter pass is idempotent. -/
theorem filter_pair_idem (p q : α → Bool) (l : List α) :
    (((l.filter p).filter q).filter p).filter q = (l.filter p).filter q := by
  simp only [List.filter_filter]
  apply List.filter_congr
  intro x _
  cases p x <;> cases q x <;> rfl

/-- Flattening singleton-or-empty lists is `filterMap`. -/
theorem flatten_map_toList (f : α → Option β) (l : List α) :
    ((l.map (fun a => (f a).toList)).flatten) = l.filterMap f := by
  induction l with
  | nil => rfl
  | cons a l ih =>
    cases h : f a <;> simp [h, ih]

/-! ## Claim theorems -/

/-- A filesystem with no scripts directory anywhere. -/
def noScriptsFs : BuildsFs :=
  ⟨fun _ => false, fun _ => []⟩

/-- The manifest of the build-resolution example:
`builds = {"fedora": ["a"], "*": ["b"]}`. -/
def c1Man : DotfileManifest :=
  { name := "demo", description := none, priority := none,
    builds := some [("fedora", ["a"]), ("*", ["b"])],
    configs := none, cleanup := none }

/-- C1: the build-command resolver starts from `manifest.builds[machineId]`
when present, else `manifest.builds["*"]` when present, else the empty list
(that is exactly `buildsBase`); the wildcard and specific lists are never
concatenated, discovered scripts are only appended after that start list,
and with no scripts directory the result is the start list itself.  For
`builds = {"fedora": ["a"], "*": ["b"]}` the result is `["a"]` for machine
id `fedora` and `["b"]` for machine id `arch`. -/
theorem getComponentBuilds_start_list :
    (∀ (machineId : String) (man : DotfileManifest) (source env : Option String)
        (cwd : String) (fs : BuildsFs) (res : List String × DotfileManifest),
      getComponentBuilds machineId man source env cwd fs = .ok res →
      ∃ extra, res.1 = buildsBase machineId man.builds ++ extra) ∧
    (∀ (machineId : String) (man : DotfileManifest) (source env : Option String)
        (cwd : String) (res : List String × DotfileManifest),
      getComponentBuilds machineId man source env cwd noScriptsFs = .ok res →
      res.1 = buildsBase machineId man.builds) ∧
    getComponentBuilds "fedora" c1Man (some "/src") none "/" noScriptsFs =
      .ok (["a"], c1Man) ∧
    getComponentBuilds "arch" c1Man (some "/src") none "/" noScriptsFs =
      .ok (["b"], c1Man) := by
  refine ⟨?_, ?_, rfl, rfl⟩
  · intro machineId man source env cwd fs res h
    simp only [getComponentBuilds] at h
    split at h
    · exact absurd h (by simp)
    · rename_i fullPath hfp
      split at h
      · obtain rfl := (Except.ok.inj h).symm
        exact ⟨scriptCmds machineId fullPath (fs.readDir fullPath), rfl⟩
      · obtain rfl := (Except.ok.inj h).symm
        exact ⟨[], (List.append_nil _).symm⟩
  · intro machineId man source env cwd res h
    simp only [getComponentBuilds, noScriptsFs] at h
    split at h
    · exact absurd h (by simp)
    · simp only [Bool.false_eq_true, if_false] at h
      obtain rfl := (Except.ok.inj h).symm
      rfl

/-- C1 witness: the universally quantified parts, applied to the concrete
`fedora` example. -/
theorem getComponentBuilds_start_list_witness :
    (∃ extra, (["a"], c1Man).1 = buildsBase "fedora" c1Man.builds ++ extra) ∧
    (["a"], c1Man).1 = buildsBase "fedora" c1Man.builds :=
  ⟨getComponentBuilds_start_list.1 "fedora" c1Man (some "/src") none "/"
      noScriptsFs (["a"], c1Man) rfl,
    getComponentBuilds_start_list.2.1 "fedora" c1Man (some "/src") none "/"
      (["a"], c1Man) rfl⟩

/-- The manifest handed to the build resolver in the mutation example:
`builds = {"*": ["b"]}`. -/
def c2Man : DotfileManifest :=
  { name := "demo", description := none, priority := none,
    builds := some [("*", ["b"])], configs := none, cleanup := none }

/-- A builds directory that exists and holds one matching script
`fedora.sh`. -/
def c2Fs : BuildsFs :=
  ⟨fun _ => true, fun _ => [⟨"fedora.sh", true, false⟩]⟩

/-- The manifest value after the call: the wildcard entry now also holds the
script invocation. -/
def c2MutMan : DotfileManifest :=
  { name := "demo", description := none, priority := none,
    builds := some [("*", ["b", "bash -c \"/src/demo/builds/fedora.sh\""])],
    configs := none, cleanup := none }

/-- C2 (code bug): `getComponentBuilds` pushes the discovered script
commands onto the very array stored in `manifest.builds` (its `commands`
variable aliases that array), so a call that discovers a script mutates the
manifest: with machine id `fedora`, `builds = {"*": ["b"]}` and a
`builds/fedora.sh` script, the manifest afterwards differs from the
manifest before — its wildcard entry has become
`["b", "bash -c ..."]` — contradicting the immutability the specification
states. -/
theorem getComponentBuilds_mutates_manifest :
    getComponentBuilds "fedora" c2Man (some "/src") none "/" c2Fs =
      .ok (["b", "bash -c \"/src/demo/builds/fedora.sh\""], c2MutMan) ∧
    c2MutMan ≠ c2Man :=
  ⟨rfl, by decide⟩

/-- C3 counterexample: for the path `~foo` (a `~` not followed by a path
separator) with HOME unset, the claim predicts plain absolutization with no
error and no `~` interpretation, but `resolveHomePath` enters its `~` branch
on `path.startsWith("~")` alone and throws the home-not-set error. -/
theorem resolveHomePath_tilde_foo_errors :
    resolveHomePath none "/cwd" "~foo" = .error homeNotSetMsg ∧
    resolveHomePath none "/cwd" "~foo" ≠ .ok "/cwd/~foo" := by
  constructor
  · rfl
  · intro h
    rw [show resolveHomePath none "/cwd" "~foo" = .error homeNotSetMsg from rfl] at h
    exact Except.noConfusion h

/-- C3 (amended): `resolveHomePath` fails with the home-not-set error if and
only if the path starts with `~` (any following character) while HOME is
unset or empty; when HOME is set non-empty, a leading `~` followed by `/`,
`\` or end-of-string is replaced by HOME and the result made absolute, a
leading `~` followed by anything else is kept verbatim (no `~`
interpretation) and made absolute, and a path not starting with `~` is
simply made absolute.  Concretely `resolveHomePath "~/foo"` with
HOME=`/home/u` yields `/home/u/foo`, and with HOME unset it fails. -/
theorem resolveHomePath_characterisation :
    (∀ (env : Option String) (cwd path : String),
      (∃ e, resolveHomePath env cwd path = .error e) ↔
        (strStartsWith path "~" = true ∧ (env = none ∨ env = some ""))) ∧
    (∀ (env : Option String) (cwd path e : String),
      resolveHomePath env cwd path = .error e → e = homeNotSetMsg) ∧
    (∀ (home cwd path : String), home ≠ "" → strStartsWith path "~" = true →
      resolveHomePath (some home) cwd path =
        .ok (pathResolve cwd (tildeReplace path home))) ∧
    (∀ (env : Option String) (cwd path : String), strStartsWith path "~" = false →
      resolveHomePath env cwd path = .ok (pathResolve cwd path)) ∧
    (∀ (path home : String), path ≠ "~" → strStartsWith path "~/" = false →
      strStartsWith path "~\\" = false → tildeReplace path home = path) ∧
    resolveHomePath (some "/home/u") "/cwd" "~/foo" = .ok "/home/u/foo" ∧
    resolveHomePath none "/cwd" "~/foo" = .error homeNotSetMsg := by
  refine ⟨?_, ?_, ?_, ?_, ?_, rfl, rfl⟩
  · intro env cwd path
    constructor
    · rintro ⟨e, he⟩
      unfold resolveHomePath at he
      split at he
      · rename_i hst
        refine ⟨hst, ?_⟩
        match env with
        | none => exact Or.inl rfl
        | some home =>
          simp only at he
          split at he
          · rename_i hhe
            exact Or.inr (by rw [hhe])
          · exact absurd he (by simp)
      · exact absurd he (by simp)
    · rintro ⟨hst, henv⟩
      refine ⟨homeNotSetMsg, ?_⟩
      unfold resolveHomePath
      rw [if_pos hst]
      rcases henv with h | h <;> rw [h]
      simp
  · intro env cwd path e he
    unfold resolveHomePath at he
    split at he
    · match env with
      | none => exact (Except.error.inj he).symm
      | some home =>
        simp only at he
        split at he
        · exact (Except.error.inj he).symm
        · exact absurd he (by simp)
    · exact absurd he (by simp)
  · intro home cwd path hne hst
    unfold resolveHomePath
    rw [if_pos hst]
    simp only [if_neg hne]
  · intro env cwd path hst
    unfold resolveHomePath
    rw [if_neg (by simp [hst])]
  · intro path home h1 h2 h3
    unfold tildeReplace
    rw [if_neg h1, if_neg (by simp [h2]), if_neg (by simp [h3])]

/-- C3 witness: the fourth conjunct applied at a path without `~`, and the
third at `~abc` with HOME set, both fully evaluated. -/
theorem resolveHomePath_characterisation_witness :
    resolveHomePath none "/cwd" "etc" = .ok (pathResolve "/cwd" "etc") ∧
    resolveHomePath (some "/home/u") "/cwd" "~abc" =
      .ok (pathResolve "/cwd" (tildeReplace "~abc" "/home/u")) :=
  ⟨resolveHomePath_characterisation.2.2.2.1 none "/cwd" "etc" (by decide),
    resolveHomePath_characterisation.2.2.1 "/home/u" "/cwd" "~abc"
      (by decide) (by decide)⟩

/-- C6: when the components source root does not exist, the catalog returns
the empty list together with one reported error, and (being a total
function whose inner failures are all caught) raises no exception to its
caller. -/
theorem getAvailableManifests_missing_root :
    ∀ (sb : SortKey) (cmpNames : List String) (root : SourceRoot),
      root.rootExists = false →
      getAvailableManifests sb cmpNames root =
        ([], [.error ("Components source directory not found: " ++ root.path)]) := by
  intro sb cmpNames root h
  unfold getAvailableManifests
  rw [h]
  simp

/-- A source root that does not exist. -/
def missingRoot : SourceRoot :=
  { path := "/nowhere", rootExists := false, entries := [],
    manifestFile := fun _ => none, isDir := fun _ => false,
    pathExists := fun _ _ => false }

/-- C6 witness: the missing-root behaviour at a concrete root. -/
theorem getAvailableManifests_missing_root_witness :
    getAvailableManifests .priority ["git"] missingRoot =
      ([], [.error ("Components source directory not found: " ++ "/nowhere")]) :=
  getAvailableManifests_missing_root .priority ["git"] missingRoot rfl

/-- C7: schema validation applies the defaults before returning the typed
value: a config entry validated with `force` unset gets `force = false`,
with `tags` unset gets `tags = ["*"]`, and the manifest priority is passed
through unchanged, so an absent `priority` stays absent (it is not
defaulted to a number). -/
theorem schema_validation_defaults :
    (∀ (r : RawConfigSrc) (c : ConfigSrc), parseConfigSrc r = .ok c →
      (r.force = none → c.force = false) ∧ (r.tags = none → c.tags = ["*"])) ∧
    (∀ (r : RawManifest) (m : DotfileManifest), parseManifest r = .ok m →
      m.priority = r.priority) := by
  constructor
  · intro r c h
    unfold parseConfigSrc at h
    cases htg : r.tags with
    | none =>
      rw [htg] at h
      split at h
      · exact absurd h (by simp)
      · split at h
        · exact absurd h (by simp)
        · split at h
          · exact absurd h (by simp)
          · split at h
            · exact absurd h (by simp)
            · obtain rfl := Except.ok.inj h
              refine ⟨fun hf => ?_, fun _ => rfl⟩
              show r.force.getD false = false
              rw [hf]
              rfl
    | some ts =>
      rw [htg] at h
      split at h
      · exact absurd h (by simp)
      · split at h
        · exact absurd h (by simp)
        · split at h
          · exact absurd h (by simp)
          · split at h
            · exact absurd h (by simp)
            · split at h
              · rename_i heq2
                cases heq2
              · split at h
                · exact absurd h (by simp)
                · obtain rfl := Except.ok.inj h
                  refine ⟨fun hf => ?_, fun hcontra => ?_⟩
                  · show r.force.getD false = false
                    rw [hf]
                    rfl
                  · cases hcontra
  · intro r m h
    unfold parseManifest at h
    have hrest : ∀ nm bs2, parseManifestRest r nm bs2 = .ok m → m.priority = r.priority := by
      intro nm bs2 hr
      unfold parseManifestRest at hr
      split at hr
      · obtain rfl := Except.ok.inj hr
        rfl
      · split at hr
        · exact absurd hr (by simp)
        · obtain rfl := Except.ok.inj hr
          rfl
    split at h
    · exact absurd h (by simp)
    · split at h
      · exact hrest _ _ h
      · split at h
        · exact absurd h (by simp)
        · exact hrest _ _ h

/-- A raw config entry with both `force` and `tags` unset. -/
def rawCfgNoDefaults : RawConfigSrc :=
  { from_ := some "nvim", to_ := some "~/.config/nvim",
    method := some "symlink", force := none, tags := none }

/-- Its validated form. -/
def cfgDefaulted : ConfigSrc :=
  { from_ := "nvim", to_ := "~/.config/nvim", method := .symlink,
    force := false, tags := ["*"] }

/-- A raw manifest with no priority. -/
def rawManNoPrio : RawManifest :=
  { name := some "demo", description := none, priority := none,
    builds := none, configs := none, cleanup := none }

/-- Its validated form. -/
def manNoPrio : DotfileManifest :=
  { name := "demo", description := none, priority := none,
    builds := none, configs := none, cleanup := none }

/-- C7 witness: the defaults at a concrete raw entry and manifest. -/
theorem schema_validation_defaults_witness :
    cfgDefaulted.force = false ∧ cfgDefaulted.tags = ["*"] ∧
    manNoPrio.priority = rawManNoPrio.priority :=
  ⟨(schema_validation_defaults.1 rawCfgNoDefaults cfgDefaulted rfl).1 rfl,
    (schema_validation_defaults.1 rawCfgNoDefaults cfgDefaulted rfl).2 rfl,
    schema_validation_defaults.2 rawManNoPrio manNoPrio rfl⟩

/-- C9: the shared tag-inclusion / name-exclusion selection filter of the
list and install actions is idempotent: applying it to its own output with
the same tag and exclude arguments (and the same machine id) returns that
output unchanged. -/
theorem selectFilter_idempotent :
    ∀ (tags exclude : Option (List String)) (machineId : String)
      (l : List DotfileManifest),
      selectFilter tags exclude machineId (selectFilter tags exclude machineId l) =
        selectFilter tags exclude machineId l := by
  intro tags exclude machineId l
  unfold selectFilter
  cases ht : flagActive tags <;> cases he : flagActive exclude <;>
    simp only [Bool.false_eq_true, if_false, if_true]
  · exact filter_self_idem _ l
  · exact filter_self_idem _ l
  · exact filter_pair_idem _ _ l

/-! ## Order lemmas for the catalog sort -/

/-- `lexLe` is total. -/
theorem lexLe_total : ∀ a b : List Char, lexLe a b = true ∨ lexLe b a = true := by
  intro a
  induction a with
  | nil => intro b; exact Or.inl rfl
  | cons x xs ih =>
    intro b
    cases b with
    | nil => exact Or.inr rfl
    | cons y ys =>
      rcases lt_trichotomy x y with hlt | heq | hgt
      · left
        simp [lexLe, hlt]
      · subst heq
        rcases ih ys with h | h
        · left
          simp [lexLe, h]
        · right
          simp [lexLe, h]
      · right
        simp [lexLe, hgt]

/-- `lexLe` is transitive. -/
theorem lexLe_trans :
    ∀ a b c : List Char, lexLe a b = true → lexLe b c = true → lexLe a c = true := by
  intro a
  induction a with
  | nil => intro b c _ _; rfl
  | cons x xs ih =>
    intro b c hab hbc
    cases b with
    | nil => exact absurd hab (by simp [lexLe])
    | cons y ys =>
      cases c with
      | nil => exact absurd hbc (by simp [lexLe])
      | cons z zs =>
        rcases lt_trichotomy x y with hxy | hxy | hxy
        · rcases lt_trichotomy y z with hyz | hyz | hyz
          · simp [lexLe, lt_trans hxy hyz]
          · subst hyz
            simp [lexLe, hxy]
          · simp only [lexLe, if_neg (asymm hyz), if_pos hyz] at hbc
            cases hbc
        · subst hxy
          rcases lt_trichotomy x z with hyz | hyz | hyz
          · simp [lexLe, hyz]
          · subst hyz
            simp only [lexLe, lt_irrefl, if_neg (lt_irrefl x)] at *
            exact ih ys zs hab hbc
          · simp only [lexLe, if_neg (asymm hyz), if_pos hyz] at hbc
            cases hbc
        · simp only [lexLe, if_neg (asymm hxy), if_pos hxy] at hab
          cases hab
  
/-- `lexLe` both ways forces equality. -/
theorem lexLe_antisymm :
    ∀ a b : List Char, lexLe a b = true → lexLe b a = true → a = b := by
  intro a
  induction a with
  | nil =>
    intro b _ hba
    cases b with
    | nil => rfl
    | cons y ys => exact absurd hba (by simp [lexLe])
  | cons x xs ih =>
    intro b hab hba
    cases b with
    | nil => exact absurd hab (by simp [lexLe])
    | cons y ys =>
      rcases lt_trichotomy x y with hxy | hxy | hxy
      · simp only [lexLe, if_neg (asymm hxy), if_pos hxy] at hba
        cases hba
      · subst hxy
        simp only [lexLe, if_neg (lt_irrefl x)] at hab hba
        rw [ih ys hab hba]
      · simp only [lexLe, if_neg (asymm hxy), if_pos hxy] at hab
        cases hab

/-- `prioLt` is asymmetric. -/
theorem prioLt_asymm :
    ∀ p q : Option Int, prioLt p q = true → prioLt q p = false := by
  intro p q h
  cases p <;> cases q <;> simp_all [prioLt]
  omega

/-- `prioLt` rules out equality. -/
theorem prioLt_ne : ∀ p q : Option Int, prioLt p q = true → (p == q) = false := by
  intro p q h
  cases p <;> cases q <;> simp_all [prioLt]
  omega

/-- Priorities compare by trichotomy. -/
theorem prioLt_trichotomy :
    ∀ p q : Option Int, prioLt p q = true ∨ p = q ∨ prioLt q p = true := by
  intro p q
  cases p with
  | none =>
    cases q with
    | none => exact Or.inr (Or.inl rfl)
    | some b => exact Or.inr (Or.inr rfl)
  | some a =>
    cases q with
    | none => exact Or.inl rfl
    | some b =>
      rcases lt_trichotomy a b with h | h | h
      · exact Or.inl (by simp [prioLt, h])
      · exact Or.inr (Or.inl (by rw [h]))
      · exact Or.inr (Or.inr (by simp [prioLt, h]))

/-- `prioLt` is transitive. -/
theorem prioLt_trans :
    ∀ p q r : Option Int, prioLt p q = true → prioLt q r = true →
      prioLt p r = true := by
  intro p q r hpq hqr
  cases p <;> cases q <;> cases r <;> simp_all [prioLt]
  omega

/-- The catalog comparator is total. -/
theorem manifestLE_total (sb : SortKey) (a b : DotfileManifest) :
    manifestLE sb a b = true ∨ manifestLE sb b a = true := by
  cases sb with
  | name => exact lexLe_total a.name.data b.name.data
  | priority =>
    rcases prioLt_trichotomy a.priority b.priority with h | h | h
    · left
      simp [manifestLE, h]
    · rcases lexLe_total a.name.data b.name.data with hn | hn
      · left
        simp [manifestLE, strLe, h, hn]
      · right
        simp [manifestLE, strLe, h, hn]
    · right
      simp [manifestLE, h]

/-- The catalog comparator is transitive. -/
theorem manifestLE_trans (sb : SortKey) (a b c : DotfileManifest) :
    manifestLE sb a b = true → manifestLE sb b c = true →
      manifestLE sb a c = true := by
  cases sb with
  | name => exact lexLe_trans a.name.data b.name.data c.name.data
  | priority =>
    intro hab hbc
    simp only [manifestLE, Bool.or_eq_true, Bool.and_eq_true, beq_iff_eq] at hab hbc ⊢
    rcases hab with hab | ⟨hab, habn⟩
    · rcases hbc with hbc | ⟨hbc, hbcn⟩
      · exact Or.inl (prioLt_trans _ _ _ hab hbc)
      · exact Or.inl (hbc ▸ hab)
    · rcases hbc with hbc | ⟨hbc, hbcn⟩
      · exact Or.inl (hab ▸ hbc)
      · exact Or.inr ⟨hab.trans hbc, lexLe_trans _ _ _ habn hbcn⟩

/-- Two manifests below each other under the comparator share their name. -/
theorem manifestLE_antisymm_name (sb : SortKey) (a b : DotfileManifest) :
    manifestLE sb a b = true → manifestLE sb b a = true → a.name = b.name := by
  have hdata : ∀ x y : String, x.data = y.data → x = y := by
    intro x y h
    cases x
    cases y
    exact congrArg String.mk h
  cases sb with
  | name =>
    intro hab hba
    exact hdata _ _ (lexLe_antisymm _ _ hab hba)
  | priority =>
    intro hab hba
    simp only [manifestLE, Bool.or_eq_true, Bool.and_eq_true, beq_iff_eq] at hab hba
    rcases hab with hab | ⟨hab, habn⟩
    · rcases hba with hba | ⟨hba, hban⟩
      · exact absurd hba (by simp [prioLt_asymm _ _ hab])
      · exact absurd (hba ▸ hab : prioLt a.priority a.priority = true)
          (by simpa using prioLt_asymm _ _ (hba ▸ hab))
    · rcases hba with hba | ⟨hba, hban⟩
      · exact absurd hba (by rw [hab] at *; simpa using prioLt_asymm _ _ hba)
      · exact hdata _ _ (lexLe_antisymm _ _ habn hban)

/-! ## Insertion sort lemmas -/

/-- Inserting permutes to consing. -/
theorem insertSorted_perm (le : α → α → Bool) (a : α) (l : List α) :
    (insertSorted le a l).Perm (a :: l) := by
  induction l with
  | nil => exact List.Perm.refl _
  | cons b l ih =>
    unfold insertSorted
    by_cases h : le a b = true
    · rw [if_pos h]
    · rw [if_neg h]
      exact (ih.cons b).trans (List.Perm.swap a b l)

/-- `sortWith` permutes its input. -/
theorem sortWith_perm (le : α → α → Bool) (l : List α) :
    (sortWith le l).Perm l := by
  induction l with
  | nil => exact List.Perm.refl _
  | cons a l ih =>
    exact (insertSorted_perm le a (sortWith le l)).trans (ih.cons a)

/-- Insertion preserves sortedness for a total transitive comparator. -/
theorem insertSorted_pairwise (le : α → α → Bool)
    (htot : ∀ x y, le x y = true ∨ le y x = true)
    (htrans : ∀ x y z, le x y = true → le y z = true → le x z = true)
    (a : α) (l : List α) (hl : l.Pairwise (fun x y => le x y = true)) :
    (insertSorted le a l).Pairwise (fun x y => le x y = true) := by
  induction l with
  | nil => simp [insertSorted]
  | cons b l ih =>
    rcases List.pairwise_cons.mp hl with ⟨hb, hl2⟩
    unfold insertSorted
    by_cases h : le a b = true
    · rw [if_pos h]
      refine List.Pairwise.cons ?_ hl
      intro x hx
      rcases List.mem_cons.mp hx with rfl | hx
      · exact h
      · exact htrans a b x h (hb x hx)
    · rw [if_neg h]
      refine List.Pairwise.cons ?_ (ih hl2)
      intro x hx
      have hx2 : x = a ∨ x ∈ l :=
        List.mem_cons.mp ((insertSorted_perm le a l).mem_iff.mp hx)
      rcases hx2 with rfl | hx2
      · exact (htot x b).resolve_left h
      · exact hb x hx2

/-- `sortWith` sorts, for a total transitive comparator. -/
theorem sortWith_pairwise (le : α → α → Bool)
    (htot : ∀ x y, le x y = true ∨ le y x = true)
    (htrans : ∀ x y z, le x y = true → le y z = true → le x z = true)
    (l : List α) :
    (sortWith le l).Pairwise (fun x y => le x y = true) := by
  induction l with
  | nil => exact List.Pairwise.nil
  | cons a l ih => exact insertSorted_pairwise le htot htrans a (sortWith le l) ih

/-- C4: catalog sorting permutes the resolved manifests into an order that
is (i) sorted by the comparator — in `priority` mode ascending priority with
an absent priority largest and ties broken by lexicographic name, in `name`
mode lexicographic name only — (ii) total in the sense that two components
compare below each other only when their names are equal, and (iii) such
that a component with explicit priority `0` always sits strictly before one
with no priority. -/
theorem catalog_sort_spec :
    (∀ (sb : SortKey) (l : List DotfileManifest), (sortManifests sb l).Perm l) ∧
    (∀ (sb : SortKey) (l : List DotfileManifest),
      (sortManifests sb l).Pairwise (fun a b => manifestLE sb a b = true)) ∧
    (∀ (sb : SortKey) (a b : DotfileManifest),
      manifestLE sb a b = true → manifestLE sb b a = true → a.name = b.name) ∧
    (∀ (l : List DotfileManifest)
      (i j : Fin (sortManifests .priority l).length),
      ((sortManifests .priority l).get i).priority = some 0 →
      ((sortManifests .priority l).get j).priority = none → i < j) := by
  refine ⟨?_, ?_, manifestLE_antisymm_name, ?_⟩
  · intro sb l
    exact sortWith_perm _ l
  · intro sb l
    exact sortWith_pairwise _ (manifestLE_total sb) (manifestLE_trans sb) l
  · intro l i j hi hj
    have hp : (sortManifests .priority l).Pairwise
        (fun a b => manifestLE .priority a b = true) :=
      sortWith_pairwise _ (manifestLE_total .priority) (manifestLE_trans .priority) l
    rw [List.pairwise_iff_get] at hp
    rcases lt_trichotomy i j with h | h | h
    · exact h
    · subst h
      rw [hi] at hj
      cases hj
    · have hle := hp j i h
      rw [manifestLE] at hle
      rw [hi, hj] at hle
      simp [prioLt] at hle

/-- A manifest with explicit priority `0` and a late name. -/
def wM0 : DotfileManifest :=
  { name := "zeta", description := none, priority := some 0,
    builds := none, configs := none, cleanup := none }

/-- A manifest with no priority and an early name. -/
def wMN : DotfileManifest :=
  { name := "alpha", description := none, priority := none,
    builds := none, configs := none, cleanup := none }

/-- C4 witness: in the sorted pair, the priority-`0` component (despite its
later name) occupies the earlier index, and the name-equality consequence at
a concrete pair. -/
theorem catalog_sort_spec_witness :
    ((⟨0, by decide⟩ : Fin (sortManifests .priority [wMN, wM0]).length) <
      ⟨1, by decide⟩) ∧
    wM0.name = wM0.name :=
  ⟨catalog_sort_spec.2.2.2 [wMN, wM0] ⟨0, by decide⟩ ⟨1, by decide⟩
      (by decide) (by decide),
    catalog_sort_spec.2.2.1 .name wM0 wM0 (by decide) (by decide)⟩

/-! ## Catalog collection lemmas -/

/-- The successful component of a `getManifest` call is the `toOption` of the
underlying resolution. -/
theorem getManifest_fst (n : String) (root : SourceRoot) :
    (getManifest n root).1 = (resolveManifest n root).toOption := by
  unfold getManifest
  cases h : resolveManifest n root <;> simp [h, Except.toOption]

/-- The warning a failed resolution leaves in the catalog log. -/
def catalogWarn (n : String) (root : SourceRoot) : Option LogEvent :=
  match resolveManifest n root with
  | .ok _ => none
  | .error e => some (.warn ("Skipping component " ++ n ++ ": " ++ e))

/-- The log component of a `getManifest` call. -/
theorem getManifest_snd (n : String) (root : SourceRoot) :
    (getManifest n root).2 = (catalogWarn n root).toList := by
  unfold getManifest catalogWarn
  cases h : resolveManifest n root <;> simp [h]

/-- Collecting the successes of the per-name resolutions is a `filterMap`. -/
theorem catalog_collect_fst (root : SourceRoot) :
    ∀ names : List String,
      ((names.map (fun n => getManifest n root)).filterMap (fun r => r.1)) =
        names.filterMap (fun n => (resolveManifest n root).toOption) := by
  intro names
  induction names with
  | nil => rfl
  | cons n ns ih =>
    simp only [List.map_cons, List.filterMap_cons, getManifest_fst]
    cases (resolveManifest n root).toOption <;> simp [ih]

/-- Collecting the logs of the per-name resolutions is a `filterMap` of the
per-component warnings. -/
theorem catalog_collect_snd (root : SourceRoot) :
    ∀ names : List String,
      (((names.map (fun n => getManifest n root)).map (fun r => r.2)).flatten) =
        names.filterMap (fun n => catalogWarn n root) := by
  intro names
  induction names with
  | nil => rfl
  | cons n ns ih =>
    rw [List.map_map] at ih
    simp only [List.map_cons, List.flatten_cons, List.filterMap_cons, getManifest_snd]
    cases catalogWarn n root <;> simp [ih]

/-- C5: with an existing source root, the catalog output is exactly the
sorted list of the components whose individual resolution succeeds — one
failing component is skipped (leaving precisely its warning in the log) and
has no effect on the others — and the catalog itself, all inner failures
being caught, returns instead of raising. -/
theorem catalog_skips_failing_components :
    ∀ (sb : SortKey) (names : List String) (root : SourceRoot),
      root.rootExists = true →
      (getAvailableManifests sb names root).1 =
        sortManifests sb ((catalogNames names root).filterMap
          (fun n => (resolveManifest n root).toOption)) ∧
      (getAvailableManifests sb names root).2 =
        (catalogNames names root).filterMap (fun n => catalogWarn n root) := by
  intro sb names root h
  simp only [getAvailableManifests, h, if_true]
  constructor
  · rw [catalog_collect_fst root (catalogNames names root)]
  · rw [catalog_collect_snd root (catalogNames names root)]

/-- The `good` component document: one config whose `from` exists. -/
def rawGood : RawManifest :=
  { name := some "good", description := none, priority := none, builds := none,
    configs := some [{ from_ := some "nvim", to_ := some "~/.config/nvim",
                       method := some "symlink", force := none, tags := none }],
    cleanup := none }

/-- The `bad` component document: one config whose `from` is missing. -/
def rawBad : RawManifest :=
  { name := some "bad", description := none, priority := none, builds := none,
    configs := some [{ from_ := some "missing", to_ := some "~/.x",
                       method := some "copy", force := none, tags := none }],
    cleanup := none }

/-- A root with a resolving component `good` and a failing component `bad`
(the config source of `bad` does not exist under its directory). -/
def mixedRoot : SourceRoot :=
  { path := "/dots", rootExists := true, entries := [],
    manifestFile := fun n =>
      if n == "good" then some (.ok rawGood)
      else if n == "bad" then some (.ok rawBad)
      else none,
    isDir := fun _ => true,
    pathExists := fun n _ => n == "good" }

/-- C5 witness: the catalog equations at the concrete two-component root. -/
theorem catalog_skips_failing_components_witness :
    (getAvailableManifests .name ["good", "bad"] mixedRoot).1 =
      sortManifests .name ((catalogNames ["good", "bad"] mixedRoot).filterMap
        (fun n => (resolveManifest n mixedRoot).toOption)) ∧
    (getAvailableManifests .name ["good", "bad"] mixedRoot).2 =
      (catalogNames ["good", "bad"] mixedRoot).filterMap
        (fun n => catalogWarn n mixedRoot) :=
  catalog_skips_failing_components .name ["good", "bad"] mixedRoot rfl

/-- C10: with an existing root and an explicit, non-empty name list, the
names are not de-duplicated: each manifest occurs in the catalog exactly as
often as there are names in the list that resolve to it, so a name listed
`k` times contributes its manifest `k` times. -/
theorem catalog_counts_duplicates :
    ∀ (sb : SortKey) (names : List String) (root : SourceRoot)
      (m : DotfileManifest),
      root.rootExists = true → names ≠ [] →
      ((getAvailableManifests sb names root).1).count m =
        names.countP (fun n => (resolveManifest n root).toOption == some m) := by
  intro sb names root m h hne
  have hnames : catalogNames names root = names := by
    unfold catalogNames
    rw [if_pos (List.length_pos.mpr hne)]
  have h1 := (catalog_skips_failing_components sb names root h).1
  rw [hnames] at h1
  rw [h1]
  unfold sortManifests
  rw [(sortWith_perm (manifestLE sb)
    (names.filterMap (fun n => (resolveManifest n root).toOption))).count_eq m]
  exact List.count_filterMap m _ names

/-- The duplicated component document. -/
def rawDup : RawManifest :=
  { name := some "dup", description := none, priority := some 3, builds := none,
    configs := none, cleanup := none }

/-- Its resolved manifest. -/
def manDup : DotfileManifest :=
  { name := "dup", description := none, priority := some 3, builds := none,
    configs := none, cleanup := none }

/-- A root holding only the component `dup`. -/
def dupRoot : SourceRoot :=
  { path := "/dots", rootExists := true, entries := [],
    manifestFile := fun n => if n == "dup" then some (.ok rawDup) else none,
    isDir := fun _ => true,
    pathExists := fun _ _ => true }

/-- C10 witness: listing `dup` twice yields its manifest with multiplicity
two. -/
theorem catalog_counts_duplicates_witness :
    ((getAvailableManifests .priority ["dup", "dup"] dupRoot).1).count manDup =
      (["dup", "dup"].countP
        (fun n => (resolveManifest n dupRoot).toOption == some manDup)) :=
  catalog_counts_duplicates .priority ["dup", "dup"] dupRoot manDup rfl (by decide)

/-- Looking up through an insert at a different path is unchanged. -/
theorem look_insert_ne (fs : InstallFs) (p q : String) (n : FsNode)
    (h : (q == p) = false) : (fs.insert p n).look q = fs.look q := by
  unfold InstallFs.insert InstallFs.look
  rw [List.lookup_cons]
  simp [h]

/-- C8: when the resolved destination already exists and neither the CLI
`--force` flag nor the `force` field of the entry is set,
`performFileOperation` returns a skip for that entry, the destination keeps
exactly its previous node (file, directory or link), and the operation
trace contains no removal, no copy and no symlink creation — at most the
parent-directory creation that precedes the existence check. -/
theorem performFileOperation_skips_existing :
    ∀ (fs : InstallFs) (env : Option String) (cwd sourcePath cmpName : String)
      (entry : ConfigSrc) (f t : String) (srcNode destNode : FsNode),
      getResolvedConfigPaths env cwd sourcePath cmpName entry = .ok (f, t) →
      fs.look f = some srcNode →
      fs.look t = some destNode →
      entry.force = false →
      ∃ fs1 ops,
        performFileOperation fs env cwd sourcePath cmpName entry false =
          .ok (fs1, ops, .skipped) ∧
        fs1.look t = some destNode ∧
        ops.all (fun op => match op with
          | .ensuredDir _ => true
          | _ => false) = true := by
  intro fs env cwd sourcePath cmpName entry f t srcNode destNode hpaths hsrc hdest hforce
  cases hdd : fs.look (parentDirOf t) with
  | some nd =>
    refine ⟨fs, [], ?_, hdest, rfl⟩
    simp only [performFileOperation, hpaths, hsrc, ensureDir, hdd, hdest, hforce,
      Bool.or_false, Bool.false_eq_true, if_false]
  | none =>
    have hne : (t == parentDirOf t) = false := by
      rw [beq_eq_false_iff_ne]
      intro heq
      rw [heq, hdd] at hdest
      cases hdest
    have hlook : (fs.insert (parentDirOf t) .dir).look t = some destNode := by
      rw [look_insert_ne fs (parentDirOf t) t .dir hne]
      exact hdest
    refine ⟨fs.insert (parentDirOf t) .dir, [.ensuredDir (parentDirOf t)], ?_,
      hlook, rfl⟩
    simp only [performFileOperation, hpaths, hsrc, ensureDir, hdd, hlook, hforce,
      Bool.or_false, Bool.false_eq_true, if_false]

/-- The destination filesystem of the skip example: the source payload and
an already-installed destination link. -/
def skipFs : InstallFs :=
  ⟨[("/src/comp/nvim", .file), ("/home/u/.config/nvim", .link)]⟩

/-- The config entry of the skip example (`force` not set). -/
def skipEntry : ConfigSrc :=
  { from_ := "nvim", to_ := "~/.config/nvim", method := .symlink,
    force := false, tags := ["*"] }

/-- C8 witness: the second install attempt at the concrete state skips,
keeps the link, and performs no destructive operation. -/
theorem performFileOperation_skips_existing_witness :
    ∃ fs1 ops,
      performFileOperation skipFs (some "/home/u") "/" "/src" "comp" skipEntry false =
        .ok (fs1, ops, .skipped) ∧
      fs1.look "/home/u/.config/nvim" = some .link ∧
      ops.all (fun op => match op with
        | .ensuredDir _ => true
        | _ => false) = true :=
  performFileOperation_skips_existing skipFs (some "/home/u") "/" "/src" "comp"
    skipEntry "/src/comp/nvim" "/home/u/.config/nvim" .file .link
    rfl rfl rfl rfl
